import Mathlib

/-!
Verification of the SATSSpin-Win raffle-wheel logic (`src/App.tsx`).

The TypeScript source is shallowly embedded: JavaScript numbers are
modelled as rationals (`ℚ`), JS objects used as string-keyed records are
modelled as association lists whose lookup takes the first matching
binding, and fallible interactions with `localStorage` are modelled by an
explicit outcome parameter.  Every definition below mirrors the
correspondingly named function of `App.tsx`.
-/

namespace SpinWin

/-- `type Prize = { label: string; weight?: number }`. -/
structure Prize where
  label : String
  weight : Option ℚ
deriving DecidableEq, Repr

/-- The fixed catalog `PRIZES` (8 wedges, "Luggage Tag" repeated). -/
def PRIZES : List Prize :=
  [⟨"Tote Bag", none⟩,
   ⟨"Phone Holder", none⟩,
   ⟨"Luggage Tag", none⟩,
   ⟨"Pouch", none⟩,
   ⟨"Phone Ring", none⟩,
   ⟨"Ez-link Card", none⟩,
   ⟨"Towel", none⟩,
   ⟨"Luggage Tag", none⟩]

/-- `type Inventory = Record<string, number>`: a JS object, modelled as an
association list; property lookup takes the first binding. -/
abbrev Inventory := List (String × ℚ)

/-- `inventory[label] ?? 0`. -/
def invGet (inv : Inventory) (label : String) : ℚ :=
  (inv.lookup label).getD 0

/-- JS property assignment `obj[label] = v`, modelled as a shadowing
prepend: lookups take the first binding, so the new value wins. -/
def invSet (inv : Inventory) (label : String) (v : ℚ) : Inventory :=
  (label, v) :: inv

/-- `DEFAULT_INVENTORY`. -/
def DEFAULT_INVENTORY : Inventory :=
  [("Tote Bag", 20),
   ("Phone Holder", 30),
   ("Luggage Tag", 50),
   ("Pouch", 25),
   ("Phone Ring", 40),
   ("Ez-link Card", 15),
   ("Towel", 10)]

/-- `const ADMIN_PASSWORD = "1234"`. -/
def ADMIN_PASSWORD : String := "1234"

/-- The observable outcomes of `localStorage.getItem` + `JSON.parse` inside
`loadInventory`: the read may throw, return a falsy value (`null` or `""`),
the parse may throw, or parsing may yield a mapping. -/
inductive LoadResult where
  | readThrows
  | noValue
  | parseThrows
  | parsed (m : Inventory)
deriving DecidableEq, Repr

/-- The body of `loadInventory` before its `try`/`catch`: `.error` marks a
thrown exception.  The merge `\x7b ...DEFAULT_INVENTORY, ...parsed \x7d` gives the
parsed bindings priority, which the association-list append `m ++ defaults`
reproduces (lookup takes the first, i.e. parsed, binding). -/
def loadInventoryBody : LoadResult → Except Unit Inventory
  | .readThrows => .error ()
  | .noValue => .ok DEFAULT_INVENTORY
  | .parseThrows => .error ()
  | .parsed m => .ok (m ++ DEFAULT_INVENTORY)

/-- `loadInventory()`: the `catch` clause returns the default inventory. -/
def loadInventory (r : LoadResult) : Inventory :=
  match loadInventoryBody r with
  | .ok v => v
  | .error _ => DEFAULT_INVENTORY

/-- `loadInventory` viewed as a possibly-throwing computation: the
`try`/`catch` converts every internal exception into a normal return. -/
def loadInventoryExc (r : LoadResult) : Except Unit Inventory :=
  match loadInventoryBody r with
  | .ok v => .ok v
  | .error _ => .ok DEFAULT_INVENTORY

/-- Whether `localStorage.setItem` succeeds or throws (e.g. quota). -/
inductive StoreOutcome where
  | ok
  | fails
deriving DecidableEq, Repr

/-- `saveInventory(inv)`: a bare `localStorage.setItem` call with no
`try`/`catch`, so a throwing store propagates to the caller. -/
def saveInventory (_inv : Inventory) (store : StoreOutcome) : Except Unit Unit :=
  match store with
  | .ok => .ok ()
  | .fails => .error ()

/-- The `for` loop of `weightedPickIndexAvailable` that builds `eligible`:
skips entries with resolved count `<= 0`, resolves the weight as
`Math.max(0, weight ?? 1)` and pushes the entry when the weight is `> 0`.
`i` is the running catalog index. -/
def buildEligibleAux (inv : Inventory) : List Prize → ℕ → List (ℕ × ℚ)
  | [], _ => []
  | p :: rest, i =>
    if invGet inv p.label ≤ 0 then buildEligibleAux inv rest (i + 1)
    else
      if 0 < max 0 (p.weight.getD 1) then
        (i, max 0 (p.weight.getD 1)) :: buildEligibleAux inv rest (i + 1)
      else buildEligibleAux inv rest (i + 1)

/-- The scan `for (const e of eligible) \x7b r -= e.w; if (r <= 0) return e.idx \x7d`. -/
def pickLoop : List (ℕ × ℚ) → ℚ → Option ℕ
  | [], _ => none
  | (i, w) :: rest, r => if r - w ≤ 0 then some i else pickLoop rest (r - w)

/-- `weightedPickIndexAvailable(items, inventory)`, with the value of
`Math.random()` made an explicit parameter `rand`.  Returns `-1` when no
entry is eligible (`eligible.length === 0`, i.e. `getLast?` is `none`),
and falls back to the last eligible entry if the scan runs off the end.
The source's locals `eligible` and `total` are inlined. -/
def weightedPickIndexAvailable (items : List Prize) (inv : Inventory) (rand : ℚ) : ℤ :=
  match (buildEligibleAux inv items 0).getLast? with
  | none => -1
  | some lastE =>
    match pickLoop (buildEligibleAux inv items 0)
        (rand * (buildEligibleAux inv items 0).foldl (fun a x => a + x.2) 0) with
    | some i => (i : ℤ)
    | none => (lastE.1 : ℤ)

/-- `uniquePrizeLabels`: insertion-ordered deduplication of the catalog's
labels, as produced by inserting each label into a `Set`. -/
def uniqueLabels (items : List Prize) : List String :=
  items.foldl (fun acc p => if p.label ∈ acc then acc else acc ++ [p.label]) []

/-- The memoised `uniquePrizeLabels` of the app (catalog is fixed). -/
def uniquePrizeLabels : List String := uniqueLabels PRIZES

/-- `anyStockLeft`: some unique label has `(inventory[label] ?? 0) > 0`. -/
def anyStockLeft (inv : Inventory) : Bool :=
  uniquePrizeLabels.any fun label => decide (0 < invGet inv label)

/-- JS truncation toward zero, as used by the `%` remainder operator. -/
def jsTrunc (q : ℚ) : ℤ :=
  if 0 ≤ q then ⌊q⌋ else ⌈q⌉

/-- The JS `%` remainder: `a - b * trunc(a / b)` (sign follows `a`). -/
def jsRem (a b : ℚ) : ℚ :=
  a - b * (jsTrunc (a / b) : ℚ)

/-- `const slice = 360 / n` with `n = PRIZES.length`. -/
def slice : ℚ := 360 / (PRIZES.length : ℚ)

/-- `centerDeg` of wedge `i`: `slice * (i + 0.5)`. -/
def centerDeg (i : ℕ) : ℚ := slice * ((i : ℚ) + 1 / 2)

/-- `const fullRotations = 40 + Math.floor(Math.random() * 3)`, with the
random draw `rRot` explicit.  (The source comment claims 4–6 rotations.) -/
def fullRotations (rRot : ℚ) : ℤ := 40 + ⌊rRot * 3⌋

/-- `const jitter = Math.random() * 10 - 5`, with the draw explicit. -/
def jitter (rJit : ℚ) : ℚ := rJit * 10 - 5

/-- `const currentMod = ((current % 360) + 360) % 360`. -/
def currentModOf (current : ℚ) : ℚ := jsRem (jsRem current 360 + 360) 360

/-- `const targetMod = (360 - picked.centerDeg + 360) % 360`. -/
def targetModOf (idx : ℕ) : ℚ := jsRem (360 - centerDeg idx + 360) 360

/-- `const delta = (targetMod - currentMod + 360) % 360`. -/
def deltaOf (current : ℚ) (idx : ℕ) : ℚ :=
  jsRem (targetModOf idx - currentModOf current + 360) 360

/-- `const finalDeg = current + fullRotations * 360 + delta + jitter`. -/
def finalDeg (current : ℚ) (idx : ℕ) (rRot rJit : ℚ) : ℚ :=
  current + (fullRotations rRot : ℚ) * 360 + deltaOf current idx + jitter rJit

/-- The React state that `doSpin` and the settlement callback touch. -/
structure SpinState where
  spinning : Bool
  winner : Option String
  rotation : ℚ
  inventory : Inventory
deriving DecidableEq, Repr

/-- The synchronous part of `doSpin`, with the three `Math.random()` draws
(selector, rotations, jitter) explicit.  Mirrors the source's early
returns: re-entry guard, stock guard, then the selector; on `-1` the net
effect is `winner = "Out of stock"` and `spinning = false`, otherwise the
wheel is sent to `finalDeg` with `spinning = true`. -/
def doSpin (s : SpinState) (rPick rRot rJit : ℚ) : SpinState :=
  if s.spinning then s
  else if anyStockLeft s.inventory then
    if weightedPickIndexAvailable PRIZES s.inventory rPick = -1 then
      { s with winner := some "Out of stock", spinning := false }
    else
      { s with winner := none, spinning := true,
               rotation := finalDeg s.rotation
                 (weightedPickIndexAvailable PRIZES s.inventory rPick).toNat rRot rJit }
  else s

/-- Whether a `doSpin` invocation reaches the selector call: the source
calls `weightedPickIndexAvailable` only after both early returns. -/
def doSpinCallsSelector (s : SpinState) : Bool :=
  !s.spinning && anyStockLeft s.inventory

/-- The settlement callback of `doSpin` (the `setTimeout` body): decrement
the winning label's count clamped at zero, publish the winner, go Idle. -/
def settle (s : SpinState) (label : String) : SpinState :=
  { s with spinning := false, winner := some label,
           inventory := invSet s.inventory label (max 0 (invGet s.inventory label - 1)) }

/-- A JavaScript value as classified by `Number.isFinite`: a finite
number, a non-finite number, or any non-number value (string, undefined
slot, null, ...). -/
inductive JsVal where
  | num (q : ℚ)
  | nan
  | inf
  | negInf
  | nonNumber
deriving DecidableEq, Repr

/-- The admin draft `inventoryDraft`: a JS record whose values may be
arbitrary (storage-loaded values are not validated). -/
abbrev Draft := List (String × JsVal)

/-- `inventoryDraft[label]` (`none` = the property is absent). -/
def draftGet (d : Draft) (label : String) : Option JsVal :=
  d.lookup label

/-- One step of `saveDraft`'s loop body:
`Number.isFinite(raw) ? Math.max(0, Math.floor(raw)) : 0`. -/
def cleanDraftValue : Option JsVal → ℚ
  | some (.num q) => ((max 0 ⌊q⌋ : ℤ) : ℚ)
  | _ => 0

/-- `saveDraft()`: starting from a copy of the current inventory, write the
cleaned draft value for every unique prize label. -/
def saveDraft (inventory : Inventory) (draft : Draft) : Inventory :=
  uniquePrizeLabels.foldl
    (fun next label => invSet next label (cleanDraftValue (draftGet draft label)))
    inventory

/-- The admin-gate state (`adminUnlocked`, `adminError`). -/
structure AdminState where
  unlocked : Bool
  error : Option String
deriving DecidableEq, Repr

/-- `submitAdminPassword()`: exact match against the fixed secret unlocks
and clears the error; anything else locks and sets the error message. -/
def submitAdminPassword (_s : AdminState) (pass : String) : AdminState :=
  if pass = ADMIN_PASSWORD then { unlocked := true, error := none }
  else { unlocked := false, error := some "Wrong password." }

/-! ### Helper lemmas -/

theorem invGet_invSet_self (inv : Inventory) (label : String) (v : ℚ) :
    invGet (invSet inv label v) label = v := by
  simp [invGet, invSet, List.lookup]

theorem invGet_invSet_ne (inv : Inventory) (label lab : String) (v : ℚ)
    (h : label ≠ lab) : invGet (invSet inv lab v) label = invGet inv label := by
  simp [invGet, invSet, List.lookup, beq_false_of_ne h]

theorem lookup_append_of_some {m d : Inventory} {l : String} {v : ℚ}
    (h : List.lookup l m = some v) : List.lookup l (m ++ d) = some v := by
  induction m with
  | nil => simp [List.lookup] at h
  | cons kv rest ih =>
    obtain ⟨k, w⟩ := kv
    by_cases hk : l = k
    · subst hk
      simp [List.lookup] at h ⊢
      exact h
    · simp [List.lookup, beq_false_of_ne hk] at h ⊢
      exact ih h

theorem lookup_append_of_none {m d : Inventory} {l : String}
    (h : List.lookup l m = none) : List.lookup l (m ++ d) = List.lookup l d := by
  induction m with
  | nil => simp
  | cons kv rest ih =>
    obtain ⟨k, w⟩ := kv
    by_cases hk : l = k
    · subst hk
      simp [List.lookup] at h
    · simp only [List.lookup, List.cons_append, beq_false_of_ne hk] at h ⊢
      exact ih h

theorem mem_foldl_insert_of_mem (items : List Prize) :
    ∀ (acc : List String) (l : String), l ∈ acc →
      l ∈ items.foldl (fun acc p => if p.label ∈ acc then acc else acc ++ [p.label]) acc := by
  induction items with
  | nil => intro acc l h; simpa using h
  | cons p rest ih =>
    intro acc l h
    simp only [List.foldl_cons]
    apply ih
    by_cases hp : p.label ∈ acc
    · simpa [hp] using h
    · simp [hp, List.mem_append]
      exact Or.inl h

theorem label_mem_uniqueLabels_aux (items : List Prize) :
    ∀ (acc : List String) (p : Prize), p ∈ items →
      p.label ∈ items.foldl (fun acc p => if p.label ∈ acc then acc else acc ++ [p.label]) acc := by
  induction items with
  | nil => intro acc p h; simp at h
  | cons q rest ih =>
    intro acc p h
    rcases List.mem_cons.1 h with rfl | hrest
    · simp only [List.foldl_cons]
      apply mem_foldl_insert_of_mem
      by_cases hq : p.label ∈ acc
      · simp [hq]
      · simp [hq]
    · simpa only [List.foldl_cons] using ih _ p hrest

theorem label_mem_uniqueLabels {items : List Prize} {p : Prize} (h : p ∈ items) :
    p.label ∈ uniqueLabels items :=
  label_mem_uniqueLabels_aux items [] p h

theorem mem_uniqueLabels_aux (items : List Prize) :
    ∀ (acc : List String) (l : String),
      l ∈ items.foldl (fun acc p => if p.label ∈ acc then acc else acc ++ [p.label]) acc →
      l ∈ acc ∨ ∃ p ∈ items, p.label = l := by
  induction items with
  | nil => intro acc l h; simp only [List.foldl_nil] at h; exact Or.inl h
  | cons p rest ih =>
    intro acc l h
    simp only [List.foldl_cons] at h
    rcases ih _ l h with hacc | ⟨q, hq, hlab⟩
    · by_cases hp : p.label ∈ acc
      · rw [if_pos hp] at hacc; exact Or.inl hacc
      · rw [if_neg hp] at hacc
        rcases List.mem_append.1 hacc with h1 | h2
        · exact Or.inl h1
        · right
          exact ⟨p, List.mem_cons_self p rest, by simpa using (List.mem_singleton.1 h2).symm⟩
    · exact Or.inr ⟨q, List.mem_cons_of_mem p hq, hlab⟩

theorem mem_uniqueLabels {items : List Prize} {l : String} (h : l ∈ uniqueLabels items) :
    ∃ p ∈ items, p.label = l := by
  rcases mem_uniqueLabels_aux items [] l h with h0 | h1
  · simp at h0
  · exact h1

theorem anyStockLeft_true_of_eligible {inv : Inventory} {p : Prize}
    (hp : p ∈ PRIZES) (h0 : 0 < invGet inv p.label) : anyStockLeft inv = true := by
  have hmem : p.label ∈ uniquePrizeLabels := label_mem_uniqueLabels hp
  simp only [anyStockLeft, List.any_eq_true, decide_eq_true_eq]
  exact ⟨p.label, hmem, h0⟩

theorem anyStockLeft_false_of_all_zero {inv : Inventory}
    (h : ∀ p ∈ PRIZES, invGet inv p.label = 0) : anyStockLeft inv = false := by
  simp only [anyStockLeft, List.any_eq_false, decide_eq_true_eq]
  intro l hl
  obtain ⟨p, hp, rfl⟩ := mem_uniqueLabels hl
  rw [h p hp]
  exact lt_irrefl 0

theorem mem_buildEligibleAux {inv : Inventory} :
    ∀ (items : List Prize) (i : ℕ) (e : ℕ × ℚ), e ∈ buildEligibleAux inv items i →
      ∃ k p, items[k]? = some p ∧ e.1 = i + k ∧
        0 < invGet inv p.label ∧ 0 < p.weight.getD 1 := by
  intro items
  induction items with
  | nil => intro i e h; simp [buildEligibleAux] at h
  | cons p rest ih =>
    intro i e h
    by_cases h0 : invGet inv p.label ≤ 0
    · rw [buildEligibleAux, if_pos h0] at h
      obtain ⟨k, q, hk, he, hq⟩ := ih (i + 1) e h
      exact ⟨k + 1, q, by simpa using hk, by omega, hq⟩
    · by_cases hw : 0 < max 0 (p.weight.getD 1)
      · rw [buildEligibleAux, if_neg h0, if_pos hw] at h
        rcases List.mem_cons.1 h with rfl | htail
        · refine ⟨0, p, by simp, by simp, lt_of_not_le h0, ?_⟩
          rcases lt_max_iff.1 hw with h1 | h1
          · exact absurd h1 (lt_irrefl 0)
          · exact h1
        · obtain ⟨k, q, hk, he, hq⟩ := ih (i + 1) e htail
          exact ⟨k + 1, q, by simpa using hk, by omega, hq⟩
      · rw [buildEligibleAux, if_neg h0, if_neg hw] at h
        obtain ⟨k, q, hk, he, hq⟩ := ih (i + 1) e h
        exact ⟨k + 1, q, by simpa using hk, by omega, hq⟩

theorem buildEligibleAux_ne_nil {inv : Inventory} :
    ∀ (items : List Prize) (i : ℕ) (p : Prize), p ∈ items →
      0 < invGet inv p.label → 0 < p.weight.getD 1 →
      buildEligibleAux inv items i ≠ [] := by
  intro items
  induction items with
  | nil => intro i p h; simp at h
  | cons q rest ih =>
    intro i p hmem hinv hw
    rcases List.mem_cons.1 hmem with rfl | htail
    · rw [buildEligibleAux, if_neg (not_le.2 hinv), if_pos (lt_max_iff.2 (Or.inr hw))]
      exact List.cons_ne_nil _ _
    · by_cases h0 : invGet inv q.label ≤ 0
      · rw [buildEligibleAux, if_pos h0]
        exact ih (i + 1) p htail hinv hw
      · by_cases hwq : 0 < max 0 (q.weight.getD 1)
        · rw [buildEligibleAux, if_neg h0, if_pos hwq]
          exact List.cons_ne_nil _ _
        · rw [buildEligibleAux, if_neg h0, if_neg hwq]
          exact ih (i + 1) p htail hinv hw

theorem buildEligibleAux_eq_nil_of_all_zero {inv : Inventory} :
    ∀ (items : List Prize) (i : ℕ), (∀ p ∈ items, invGet inv p.label ≤ 0) →
      buildEligibleAux inv items i = [] := by
  intro items
  induction items with
  | nil => intro i _; rfl
  | cons p rest ih =>
    intro i h
    rw [buildEligibleAux, if_pos (h p (List.mem_cons_self p rest))]
    exact ih (i + 1) fun q hq => h q (List.mem_cons_of_mem p hq)

theorem pickLoop_mem :
    ∀ (l : List (ℕ × ℚ)) (r : ℚ) (i : ℕ), pickLoop l r = some i → ∃ w, (i, w) ∈ l := by
  intro l
  induction l with
  | nil => intro r i h; simp [pickLoop] at h
  | cons e rest ih =>
    intro r i h
    obtain ⟨j, w⟩ := e
    by_cases hr : r - w ≤ 0
    · rw [pickLoop, if_pos hr] at h
      obtain rfl := Option.some.inj h
      exact ⟨w, List.mem_cons_self _ _⟩
    · rw [pickLoop, if_neg hr] at h
      obtain ⟨w', hw'⟩ := ih (r - w) i h
      exact ⟨w', List.mem_cons_of_mem _ hw'⟩

theorem mem_of_getLast?_eq_some {α : Type} {l : List α} {a : α}
    (h : l.getLast? = some a) : a ∈ l := by
  have hmem : a ∈ l.getLast? := by rw [h]; rfl
  obtain ⟨hne, rfl⟩ := List.mem_getLast?_eq_getLast hmem
  exact List.getLast_mem hne

/-- Case analysis on the selector's result: either `-1`, or a valid
catalog index whose entry has positive resolved count and weight. -/
theorem weightedPick_cases (items : List Prize) (inv : Inventory) (rand : ℚ) :
    weightedPickIndexAvailable items inv rand = -1 ∨
      ∃ (j : ℕ) (p : Prize), items[j]? = some p ∧
        weightedPickIndexAvailable items inv rand = (j : ℤ) ∧
        0 < invGet inv p.label ∧ 0 < p.weight.getD 1 := by
  rcases hlast : (buildEligibleAux inv items 0).getLast? with _ | lastE
  · left
    simp only [weightedPickIndexAvailable, hlast]
  · right
    rcases hloop : pickLoop (buildEligibleAux inv items 0)
        (rand * (buildEligibleAux inv items 0).foldl (fun a x => a + x.2) 0) with _ | i
    · have hmem : lastE ∈ buildEligibleAux inv items 0 := mem_of_getLast?_eq_some hlast
      obtain ⟨k, p, hk, he, hp⟩ := mem_buildEligibleAux items 0 lastE hmem
      refine ⟨k, p, hk, ?_, hp⟩
      simp only [weightedPickIndexAvailable, hlast, hloop]
      omega
    · obtain ⟨w, hmem⟩ := pickLoop_mem _ _ i hloop
      obtain ⟨k, p, hk, he, hp⟩ := mem_buildEligibleAux items 0 (i, w) hmem
      refine ⟨k, p, hk, ?_, hp⟩
      simp only [weightedPickIndexAvailable, hlast, hloop]
      omega

theorem weightedPick_eq_neg_one_of_all_zero {items : List Prize} {inv : Inventory}
    (rand : ℚ) (h : ∀ p ∈ items, invGet inv p.label ≤ 0) :
    weightedPickIndexAvailable items inv rand = -1 := by
  have hnil : buildEligibleAux inv items 0 = [] :=
    buildEligibleAux_eq_nil_of_all_zero items 0 h
  simp only [weightedPickIndexAvailable, hnil, List.getLast?_nil]

theorem weightedPick_ne_neg_one {items : List Prize} {inv : Inventory} {p : Prize}
    (rand : ℚ) (hp : p ∈ items) (hinv : 0 < invGet inv p.label)
    (hw : 0 < p.weight.getD 1) :
    weightedPickIndexAvailable items inv rand ≠ -1 := by
  rcases weightedPick_cases items inv rand with h | ⟨j, q, _, hj, _⟩
  · exfalso
    have hne := buildEligibleAux_ne_nil items 0 p hp hinv hw
    rcases hnil : (buildEligibleAux inv items 0).getLast? with _ | lastE
    · exact hne (List.getLast?_eq_none_iff.1 hnil)
    · simp only [weightedPickIndexAvailable, hnil] at h
      rcases hloop : pickLoop (buildEligibleAux inv items 0)
          (rand * (buildEligibleAux inv items 0).foldl (fun a x => a + x.2) 0) with _ | i
      · simp only [hloop] at h
        omega
      · simp only [hloop] at h
        omega
  · rw [hj]
    omega

theorem jsRem_nonneg_lt {a b : ℚ} (hb : 0 < b) (ha : 0 ≤ a) :
    0 ≤ jsRem a b ∧ jsRem a b < b := by
  have hd : 0 ≤ a / b := div_nonneg ha hb.le
  rw [jsRem, jsTrunc, if_pos hd]
  have hcancel : b * (a / b) = a := by
    field_simp
  constructor
  · have h1 : (⌊a / b⌋ : ℚ) ≤ a / b := Int.floor_le _
    have h2 : b * (⌊a / b⌋ : ℚ) ≤ b * (a / b) := mul_le_mul_of_nonneg_left h1 hb.le
    linarith
  · have h1 : a / b < (⌊a / b⌋ : ℚ) + 1 := Int.lt_floor_add_one _
    have h2 : b * (a / b) < b * ((⌊a / b⌋ : ℚ) + 1) := mul_lt_mul_of_pos_left h1 hb
    have h3 : b * ((⌊a / b⌋ : ℚ) + 1) = b * (⌊a / b⌋ : ℚ) + b := by ring
    linarith

theorem jsRem_bounds {b : ℚ} (hb : 0 < b) (a : ℚ) :
    -b < jsRem a b ∧ jsRem a b < b := by
  rcases le_or_lt 0 a with ha | ha
  · obtain ⟨h1, h2⟩ := jsRem_nonneg_lt hb ha
    exact ⟨by linarith, h2⟩
  · have hd : a / b < 0 := div_neg_of_neg_of_pos ha hb
    rw [jsRem, jsTrunc, if_neg (not_le.2 hd)]
    have hcancel : b * (a / b) = a := by
      field_simp
    constructor
    · have h1 : (⌈a / b⌉ : ℚ) < a / b + 1 := Int.ceil_lt_add_one _
      have h2 : b * (⌈a / b⌉ : ℚ) < b * (a / b + 1) := mul_lt_mul_of_pos_left h1 hb
      have h3 : b * (a / b + 1) = b * (a / b) + b := by ring
      linarith
    · have h1 : a / b ≤ (⌈a / b⌉ : ℚ) := Int.le_ceil _
      have h2 : b * (a / b) ≤ b * (⌈a / b⌉ : ℚ) := mul_le_mul_of_nonneg_left h1 hb.le
      linarith

theorem currentModOf_bounds (current : ℚ) :
    0 ≤ currentModOf current ∧ currentModOf current < 360 := by
  have h360 : (0 : ℚ) < 360 := by norm_num
  obtain ⟨hm1, _⟩ := jsRem_bounds h360 current
  exact jsRem_nonneg_lt h360 (by linarith)

theorem centerDeg_bounds {idx : ℕ} (hidx : idx < 8) :
    0 ≤ centerDeg idx ∧ centerDeg idx ≤ 360 := by
  have hs : slice = 45 := by
    rw [slice]
    norm_num [PRIZES]
  have hc : (idx : ℚ) ≤ 7 := by
    exact_mod_cast Nat.lt_succ_iff.1 hidx
  have hc0 : (0 : ℚ) ≤ (idx : ℚ) := Nat.cast_nonneg idx
  rw [centerDeg, hs]
  constructor <;> nlinarith

theorem targetModOf_bounds {idx : ℕ} (hidx : idx < 8) :
    0 ≤ targetModOf idx ∧ targetModOf idx < 360 := by
  have h360 : (0 : ℚ) < 360 := by norm_num
  obtain ⟨hc0, hc1⟩ := centerDeg_bounds hidx
  exact jsRem_nonneg_lt h360 (by linarith)

theorem deltaOf_nonneg {idx : ℕ} (current : ℚ) (hidx : idx < 8) :
    0 ≤ deltaOf current idx := by
  have h360 : (0 : ℚ) < 360 := by norm_num
  obtain ⟨ht0, _⟩ := targetModOf_bounds hidx
  obtain ⟨_, hm1⟩ := currentModOf_bounds current
  exact (jsRem_nonneg_lt h360 (by linarith)).1

/-- A successful spin moves the wheel forward: `finalDeg` strictly exceeds
the current rotation (by at least `40 * 360 - 5` degrees, in fact). -/
theorem finalDeg_gt {idx : ℕ} (current rRot rJit : ℚ) (hidx : idx < 8)
    (hR : 0 ≤ rRot) (hJ : 0 ≤ rJit) : current < finalDeg current idx rRot rJit := by
  have hfr : (40 : ℚ) ≤ (fullRotations rRot : ℚ) := by
    rw [fullRotations]
    push_cast
    have h0 : (0 : ℤ) ≤ ⌊rRot * 3⌋ := Int.floor_nonneg.2 (by positivity)
    have h0q : (0 : ℚ) ≤ (⌊rRot * 3⌋ : ℚ) := by exact_mod_cast h0
    linarith
  have hdelta : 0 ≤ deltaOf current idx := deltaOf_nonneg current hidx
  have hjit : -5 ≤ jitter rJit := by
    rw [jitter]
    linarith
  rw [finalDeg]
  nlinarith

theorem doSpin_of_spinning {s : SpinState} (rPick rRot rJit : ℚ)
    (h : s.spinning = true) : doSpin s rPick rRot rJit = s := by
  simp [doSpin, h]

theorem doSpin_of_no_stock {s : SpinState} (rPick rRot rJit : ℚ)
    (h : anyStockLeft s.inventory = false) : doSpin s rPick rRot rJit = s := by
  rcases hs : s.spinning with _ | _
  · simp [doSpin, hs, h]
  · simp [doSpin, hs]

theorem doSpin_success {s : SpinState} {j : ℕ} (rPick rRot rJit : ℚ)
    (hs : s.spinning = false) (hstock : anyStockLeft s.inventory = true)
    (hpick : weightedPickIndexAvailable PRIZES s.inventory rPick = (j : ℤ)) :
    doSpin s rPick rRot rJit =
      { s with winner := none, spinning := true,
               rotation := finalDeg s.rotation j rRot rJit } := by
  have hne : weightedPickIndexAvailable PRIZES s.inventory rPick ≠ -1 := by
    rw [hpick]
    omega
  simp only [doSpin, hs, hstock, Bool.false_eq_true, if_false, if_true, hpick]
  rw [if_neg (by omega : ¬((j : ℤ) = -1))]
  simp

theorem invGet_foldl_invSet_of_not_mem (g : String → ℚ) :
    ∀ (labels : List String) (inv : Inventory) (l : String), l ∉ labels →
      invGet (labels.foldl (fun next lab => invSet next lab (g lab)) inv) l = invGet inv l := by
  intro labels
  induction labels with
  | nil => intro inv l _; rfl
  | cons lab rest ih =>
    intro inv l h
    have hne : l ≠ lab := fun heq => h (heq ▸ List.mem_cons_self lab rest)
    have hrest : l ∉ rest := fun hr => h (List.mem_cons_of_mem lab hr)
    simp only [List.foldl_cons]
    rw [ih _ l hrest, invGet_invSet_ne _ _ _ _ hne]

theorem invGet_foldl_invSet_of_mem (g : String → ℚ) :
    ∀ (labels : List String) (inv : Inventory) (l : String), labels.Nodup → l ∈ labels →
      invGet (labels.foldl (fun next lab => invSet next lab (g lab)) inv) l = g l := by
  intro labels
  induction labels with
  | nil => intro inv l _ h; simp at h
  | cons lab rest ih =>
    intro inv l hnd hmem
    simp only [List.foldl_cons]
    rcases List.mem_cons.1 hmem with rfl | hrest
    · have hnotin : l ∉ rest := (List.nodup_cons.1 hnd).1
      rw [invGet_foldl_invSet_of_not_mem g rest _ l hnotin, invGet_invSet_self]
    · exact ih _ l (List.nodup_cons.1 hnd).2 hrest

theorem cleanDraftValue_nonneg (v : Option JsVal) : 0 ≤ cleanDraftValue v := by
  rcases v with _ | v
  · simp [cleanDraftValue]
  · rcases v with q | _ | _ | _ | _
    · show (0 : ℚ) ≤ ((max 0 ⌊q⌋ : ℤ) : ℚ)
      exact_mod_cast le_max_left 0 ⌊q⌋
    all_goals simp [cleanDraftValue]

/-! ### Claim theorems -/

/-- C1: the claim says a spin adds a whole number of full turns between 4
and 6 inclusive.  The code computes `40 + Math.floor(Math.random() * 3)`,
i.e. 40, 41 or 42 full turns — its own comment says "4–6 full rotations" —
so the number of turns is never within the claimed range. -/
theorem fullRotations_forty_to_fortytwo_not_four_to_six :
    fullRotations 0 = 40 ∧ fullRotations (1 / 3) = 41 ∧ fullRotations (2 / 3) = 42 ∧
    ¬(4 ≤ fullRotations 0 ∧ fullRotations 0 ≤ 6) ∧
    (∀ r : ℚ, 0 ≤ r → r < 1 →
      40 ≤ fullRotations r ∧ fullRotations r ≤ 42 ∧ ¬(fullRotations r ≤ 6)) := by
  refine ⟨?_, ?_, ?_, ?_, ?_⟩
  · rw [fullRotations]
    norm_num
  · rw [fullRotations]
    norm_num
  · rw [fullRotations]
    norm_num
  · rw [fullRotations]
    norm_num
  · intro r h0 h1
    have hf0 : (0 : ℤ) ≤ ⌊r * 3⌋ := Int.floor_nonneg.2 (by positivity)
    have hf2 : ⌊r * 3⌋ < 3 := Int.floor_lt.2 (by push_cast; linarith)
    rw [fullRotations]
    omega

/-- Witness for C1's universally quantified part at the draw `r = 0`. -/
theorem fullRotations_forty_to_fortytwo_not_four_to_six_witness :
    40 ≤ fullRotations 0 ∧ fullRotations 0 ≤ 42 ∧ ¬(fullRotations 0 ≤ 6) :=
  fullRotations_forty_to_fortytwo_not_four_to_six.2.2.2.2 0 (by decide) (by decide)

/-- C2: whenever some catalog entry has positive resolved count and
positive resolved weight, the selector returns — for every value of the
random draw — a valid catalog index whose entry has resolved count `> 0`
and resolved weight `> 0`. -/
theorem weightedPick_returns_valid_in_stock_index :
    ∀ (items : List Prize) (inv : Inventory) (rand : ℚ),
      (∃ p ∈ items, 0 < invGet inv p.label ∧ 0 < p.weight.getD 1) →
      ∃ (j : ℕ) (p : Prize), j < items.length ∧ items[j]? = some p ∧
        weightedPickIndexAvailable items inv rand = (j : ℤ) ∧
        0 < invGet inv p.label ∧ 0 < p.weight.getD 1 := by
  intro items inv rand h
  obtain ⟨p, hp, hinv, hw⟩ := h
  rcases weightedPick_cases items inv rand with hneg | ⟨j, q, hk, hj, hq1, hq2⟩
  · exact absurd hneg (weightedPick_ne_neg_one rand hp hinv hw)
  · exact ⟨j, q, (List.getElem?_eq_some.1 hk).1, hk, hj, hq1, hq2⟩

/-- Witness for C2 on the default inventory with draw `1/2`. -/
theorem weightedPick_returns_valid_in_stock_index_witness :
    ∃ (j : ℕ) (p : Prize), j < PRIZES.length ∧ PRIZES[j]? = some p ∧
      weightedPickIndexAvailable PRIZES DEFAULT_INVENTORY (1 / 2) = (j : ℤ) ∧
      0 < invGet DEFAULT_INVENTORY p.label ∧ 0 < p.weight.getD 1 :=
  weightedPick_returns_valid_in_stock_index PRIZES DEFAULT_INVENTORY (1 / 2)
    ⟨⟨"Towel", none⟩, by decide, by decide, by decide⟩

/-- C3, counterexample: with every catalog label's count zero the selector
does return `-1`, but invoking the spin action leaves the state entirely
unchanged — it does not set the winner message to "Out of stock", because
`doSpin` early-returns at its stock guard before consulting the selector. -/
theorem outOfStock_not_reported_counterexample :
    weightedPickIndexAvailable PRIZES
        [("Tote Bag", 0), ("Phone Holder", 0), ("Luggage Tag", 0), ("Pouch", 0),
         ("Phone Ring", 0), ("Ez-link Card", 0), ("Towel", 0)] (1 / 2) = -1 ∧
    doSpin ⟨false, none, 0,
        [("Tote Bag", 0), ("Phone Holder", 0), ("Luggage Tag", 0), ("Pouch", 0),
         ("Phone Ring", 0), ("Ez-link Card", 0), ("Towel", 0)]⟩ (1 / 2) (1 / 2) (1 / 2) =
      ⟨false, none, 0,
        [("Tote Bag", 0), ("Phone Holder", 0), ("Luggage Tag", 0), ("Pouch", 0),
         ("Phone Ring", 0), ("Ez-link Card", 0), ("Towel", 0)]⟩ ∧
    (doSpin ⟨false, none, 0,
        [("Tote Bag", 0), ("Phone Holder", 0), ("Luggage Tag", 0), ("Pouch", 0),
         ("Phone Ring", 0), ("Ez-link Card", 0), ("Towel", 0)]⟩ (1 / 2) (1 / 2) (1 / 2)).winner ≠
      some "Out of stock" := by
  refine ⟨by decide, by decide, by decide⟩

/-- C3, amended: for an all-zero inventory the selector signals
no-eligible-prize (`-1`), but the spin controller never reaches the
selector in that situation: its stock guard makes the whole spin action a
state-preserving no-op (stays Idle, no animation, no "Out of stock"
winner message). -/
theorem outOfStock_guard_amended :
    (∀ (inv : Inventory) (rand : ℚ), (∀ p ∈ PRIZES, invGet inv p.label = 0) →
        weightedPickIndexAvailable PRIZES inv rand = -1) ∧
    (∀ (s : SpinState) (rPick rRot rJit : ℚ),
        (∀ p ∈ PRIZES, invGet s.inventory p.label = 0) →
        doSpin s rPick rRot rJit = s ∧ doSpinCallsSelector s = false) := by
  constructor
  · intro inv rand h
    exact weightedPick_eq_neg_one_of_all_zero rand fun p hp => (h p hp).le
  · intro s rPick rRot rJit h
    have hstock : anyStockLeft s.inventory = false := anyStockLeft_false_of_all_zero h
    refine ⟨doSpin_of_no_stock rPick rRot rJit hstock, ?_⟩
    simp [doSpinCallsSelector, hstock]

/-- Witness for C3's amended statement on a concrete all-zero inventory. -/
theorem outOfStock_guard_amended_witness :
    weightedPickIndexAvailable PRIZES [("Towel", 0)] (1 / 2) = -1 ∧
    doSpin ⟨false, none, 0, [("Towel", 0)]⟩ (1 / 2) (1 / 2) (1 / 2) =
      ⟨false, none, 0, [("Towel", 0)]⟩ :=
  ⟨outOfStock_guard_amended.1 [("Towel", 0)] (1 / 2) (by decide),
   (outOfStock_guard_amended.2 ⟨false, none, 0, [("Towel", 0)]⟩ (1 / 2) (1 / 2) (1 / 2)
      (by decide)).1⟩

/-- C4, counterexample: loading a persisted inventory with a negative
count does not clamp it — the negative value flows straight through the
merge, so not every inventory write clamps at zero. -/
theorem load_does_not_clamp_counterexample :
    invGet (loadInventory (LoadResult.parsed [("Towel", -5)])) "Towel" < 0 := by
  decide

/-- C4, amended: the spin settlement decrement and the admin draft save
do clamp every count they write to at least zero, but loading from
storage does not clamp: a negative persisted count is loaded as-is. -/
theorem settlement_and_draft_clamp :
    (∀ (s : SpinState) (label : String),
        0 ≤ invGet (settle s label).inventory label) ∧
    (∀ (inv : Inventory) (draft : Draft) (l : String), l ∈ uniquePrizeLabels →
        0 ≤ invGet (saveDraft inv draft) l) := by
  constructor
  · intro s label
    have h : invGet (settle s label).inventory label
        = max 0 (invGet s.inventory label - 1) := by
      simp only [settle]
      exact invGet_invSet_self _ _ _
    rw [h]
    exact le_max_left 0 _
  · intro inv draft l hl
    have hnd : uniquePrizeLabels.Nodup := by decide
    have hval : invGet (saveDraft inv draft) l
        = cleanDraftValue (draftGet draft l) := by
      rw [saveDraft]
      exact invGet_foldl_invSet_of_mem _ _ _ _ hnd hl
    rw [hval]
    exact cleanDraftValue_nonneg _

/-- Witness for C4's amended statement: a settlement write and a draft
save both produce a non-negative stored count. -/
theorem settlement_and_draft_clamp_witness :
    0 ≤ invGet (settle ⟨false, none, 0, [("Towel", 0)]⟩ "Towel").inventory "Towel" ∧
    0 ≤ invGet (saveDraft [] [("Pouch", JsVal.num (-3))]) "Pouch" :=
  ⟨settlement_and_draft_clamp.1 ⟨false, none, 0, [("Towel", 0)]⟩ "Towel",
   settlement_and_draft_clamp.2 [] [("Pouch", JsVal.num (-3))] "Pouch" (by decide)⟩

/-- C5: while Spinning, the spin action is a state-preserving no-op that
never reaches the selector; with no stock the action is likewise a no-op;
and the Idle-to-Spinning transition happens only when stock is left. -/
theorem spin_reentry_and_stock_guard :
    (∀ (s : SpinState) (rPick rRot rJit : ℚ), s.spinning = true →
        doSpin s rPick rRot rJit = s ∧ doSpinCallsSelector s = false) ∧
    (∀ (s : SpinState) (rPick rRot rJit : ℚ), anyStockLeft s.inventory = false →
        doSpin s rPick rRot rJit = s) ∧
    (∀ (s : SpinState) (rPick rRot rJit : ℚ), s.spinning = false →
        (doSpin s rPick rRot rJit).spinning = true → anyStockLeft s.inventory = true) := by
  refine ⟨?_, ?_, ?_⟩
  · intro s rPick rRot rJit h
    exact ⟨doSpin_of_spinning rPick rRot rJit h, by simp [doSpinCallsSelector, h]⟩
  · intro s rPick rRot rJit h
    exact doSpin_of_no_stock rPick rRot rJit h
  · intro s rPick rRot rJit hs htrans
    by_contra hstock
    have hfalse : anyStockLeft s.inventory = false := by
      simpa using hstock
    rw [doSpin_of_no_stock rPick rRot rJit hfalse] at htrans
    rw [hs] at htrans
    exact Bool.false_ne_true htrans

/-- Witness for C5 at a spinning state and at an empty inventory. -/
theorem spin_reentry_and_stock_guard_witness :
    doSpin ⟨true, none, 0, DEFAULT_INVENTORY⟩ 0 0 0 = ⟨true, none, 0, DEFAULT_INVENTORY⟩ ∧
    doSpinCallsSelector ⟨true, none, 0, DEFAULT_INVENTORY⟩ = false ∧
    doSpin ⟨false, none, 0, []⟩ 0 0 0 = ⟨false, none, 0, []⟩ :=
  ⟨(spin_reentry_and_stock_guard.1 ⟨true, none, 0, DEFAULT_INVENTORY⟩ 0 0 0 rfl).1,
   (spin_reentry_and_stock_guard.1 ⟨true, none, 0, DEFAULT_INVENTORY⟩ 0 0 0 rfl).2,
   spin_reentry_and_stock_guard.2.1 ⟨false, none, 0, []⟩ 0 0 0 (by decide)⟩

/-- C6: loading merges persisted values over the hardcoded defaults —
every default label stays defined, persisted bindings win — and every
read or parse failure silently yields the default inventory. -/
theorem loadInventory_merges_and_falls_back :
    (∀ (m : Inventory) (l : String), (List.lookup l DEFAULT_INVENTORY).isSome = true →
        (List.lookup l (loadInventory (LoadResult.parsed m))).isSome = true) ∧
    (∀ (m : Inventory) (l : String) (v : ℚ), List.lookup l m = some v →
        List.lookup l (loadInventory (LoadResult.parsed m)) = some v) ∧
    loadInventory LoadResult.readThrows = DEFAULT_INVENTORY ∧
    loadInventory LoadResult.noValue = DEFAULT_INVENTORY ∧
    loadInventory LoadResult.parseThrows = DEFAULT_INVENTORY := by
  refine ⟨?_, ?_, rfl, rfl, rfl⟩
  · intro m l hd
    show (List.lookup l (m ++ DEFAULT_INVENTORY)).isSome = true
    rcases hm : List.lookup l m with _ | v
    · rw [lookup_append_of_none hm]
      exact hd
    · rw [lookup_append_of_some hm]
      rfl
  · intro m l v hm
    show List.lookup l (m ++ DEFAULT_INVENTORY) = some v
    exact lookup_append_of_some hm

/-- Witness for C6: an absent persisted value keeps the default defined,
and a persisted value overrides the default. -/
theorem loadInventory_merges_and_falls_back_witness :
    (List.lookup "Towel" (loadInventory (LoadResult.parsed []))).isSome = true ∧
    List.lookup "Towel" (loadInventory (LoadResult.parsed [("Towel", 3)])) = some 3 :=
  ⟨loadInventory_merges_and_falls_back.1 [] "Towel" (by decide),
   loadInventory_merges_and_falls_back.2.1 [("Towel", 3)] "Towel" 3 rfl⟩

/-- C7, counterexample: `saveInventory` is a bare `setItem` call with no
exception handler, so a failing store write propagates to the caller —
refuting "both operations never propagate an exception". -/
theorem saveInventory_propagates_counterexample :
    saveInventory DEFAULT_INVENTORY StoreOutcome.fails = Except.error () := rfl

/-- C7, amended: `loadInventory` never propagates an exception (its
`try`/`catch` turns every internal failure into the default inventory),
while `saveInventory` returns normally exactly when the underlying store
write succeeds and propagates the store's exception when it fails. -/
theorem loadSave_exception_behaviour :
    (∀ r : LoadResult, ∃ inv : Inventory, loadInventoryExc r = Except.ok inv) ∧
    (∀ inv : Inventory, saveInventory inv StoreOutcome.ok = Except.ok ()) ∧
    (∀ inv : Inventory, saveInventory inv StoreOutcome.fails = Except.error ()) := by
  refine ⟨?_, fun _ => rfl, fun _ => rfl⟩
  intro r
  rcases r with _ | _ | _ | m
  · exact ⟨DEFAULT_INVENTORY, rfl⟩
  · exact ⟨DEFAULT_INVENTORY, rfl⟩
  · exact ⟨DEFAULT_INVENTORY, rfl⟩
  · exact ⟨m ++ DEFAULT_INVENTORY, rfl⟩

/-- C8: any spin that starts from Idle with an eligible prize strictly
increases the accumulated rotation (the added amount is at least
`40 * 360` degrees minus the worst-case jitter of 5). -/
theorem spin_rotation_strictly_increases :
    ∀ (s : SpinState) (rPick rRot rJit : ℚ), s.spinning = false →
      0 ≤ rRot → 0 ≤ rJit →
      (∃ p ∈ PRIZES, 0 < invGet s.inventory p.label ∧ 0 < p.weight.getD 1) →
      s.rotation < (doSpin s rPick rRot rJit).rotation := by
  intro s rPick rRot rJit hs hR hJ h
  obtain ⟨p, hp, hinv, hw⟩ := h
  have hstock := anyStockLeft_true_of_eligible hp hinv
  rcases weightedPick_cases PRIZES s.inventory rPick with hneg | ⟨j, q, hk, hj, _, _⟩
  · exact absurd hneg (weightedPick_ne_neg_one rPick hp hinv hw)
  · have hlen : j < PRIZES.length := (List.getElem?_eq_some.1 hk).1
    have hlen8 : j < 8 := by
      have h8 : PRIZES.length = 8 := rfl
      omega
    rw [doSpin_success rPick rRot rJit hs hstock hj]
    exact finalDeg_gt s.rotation rRot rJit hlen8 hR hJ

/-- Witness for C8 on the default inventory with all draws zero. -/
theorem spin_rotation_strictly_increases_witness :
    (⟨false, none, 0, DEFAULT_INVENTORY⟩ : SpinState).rotation <
      (doSpin ⟨false, none, 0, DEFAULT_INVENTORY⟩ 0 0 0).rotation :=
  spin_rotation_strictly_increases ⟨false, none, 0, DEFAULT_INVENTORY⟩ 0 0 0 rfl
    (by decide) (by decide) ⟨⟨"Tote Bag", none⟩, by decide, by decide, by decide⟩

/-- C9: unlocking succeeds exactly on the fixed secret; a wrong password
leaves the gate locked with the visible error message, with no lockout,
so two wrong attempts followed by the correct one fail, fail, unlock. -/
theorem adminGate_unlock_spec :
    (∀ (s : AdminState) (pass : String),
        (submitAdminPassword s pass).unlocked = true ↔ pass = ADMIN_PASSWORD) ∧
    (∀ (s : AdminState) (pass : String), pass ≠ ADMIN_PASSWORD →
        (submitAdminPassword s pass).unlocked = false ∧
        (submitAdminPassword s pass).error = some "Wrong password.") ∧
    ((submitAdminPassword ⟨false, none⟩ "0000").unlocked = false ∧
     (submitAdminPassword ⟨false, none⟩ "0000").error = some "Wrong password." ∧
     (submitAdminPassword (submitAdminPassword ⟨false, none⟩ "0000") "9999").unlocked
        = false ∧
     (submitAdminPassword (submitAdminPassword ⟨false, none⟩ "0000") "9999").error
        = some "Wrong password." ∧
     (submitAdminPassword
        (submitAdminPassword (submitAdminPassword ⟨false, none⟩ "0000") "9999")
        "1234").unlocked = true ∧
     (submitAdminPassword
        (submitAdminPassword (submitAdminPassword ⟨false, none⟩ "0000") "9999")
        "1234").error = none) := by
  refine ⟨?_, ?_, by decide⟩
  · intro s pass
    by_cases h : pass = ADMIN_PASSWORD
    · simp [submitAdminPassword, h]
    · simp [submitAdminPassword, h]
  · intro s pass h
    simp [submitAdminPassword, h]

/-- Witness for C9 at a concrete wrong password. -/
theorem adminGate_unlock_spec_witness :
    (submitAdminPassword ⟨false, none⟩ "0000").unlocked = false ∧
    (submitAdminPassword ⟨false, none⟩ "0000").error = some "Wrong password." :=
  adminGate_unlock_spec.2.1 ⟨false, none⟩ "0000" (by decide)

/-- C10: committing a draft stores, for every unique prize label, a
non-negative integer: a finite draft value is stored as its floor clamped
at zero (hence a negative value stores 0), and a non-numeric or missing
value stores 0. -/
theorem saveDraft_clamps_to_nonneg_ints :
    ∀ (inv : Inventory) (draft : Draft) (l : String), l ∈ uniquePrizeLabels →
      (∃ z : ℤ, 0 ≤ z ∧ invGet (saveDraft inv draft) l = (z : ℚ)) ∧
      (∀ q : ℚ, draftGet draft l = some (JsVal.num q) →
          invGet (saveDraft inv draft) l = ((max 0 ⌊q⌋ : ℤ) : ℚ)) ∧
      (∀ q : ℚ, q < 0 → draftGet draft l = some (JsVal.num q) →
          invGet (saveDraft inv draft) l = 0) ∧
      ((∀ q : ℚ, draftGet draft l ≠ some (JsVal.num q)) →
          invGet (saveDraft inv draft) l = 0) := by
  intro inv draft l hl
  have hnd : uniquePrizeLabels.Nodup := by decide
  have hval : invGet (saveDraft inv draft) l = cleanDraftValue (draftGet draft l) := by
    rw [saveDraft]
    exact invGet_foldl_invSet_of_mem _ _ _ _ hnd hl
  refine ⟨?_, ?_, ?_, ?_⟩
  · rw [hval]
    rcases draftGet draft l with _ | v
    · exact ⟨0, le_refl 0, by simp [cleanDraftValue]⟩
    · rcases v with q | _ | _ | _ | _
      · exact ⟨max 0 ⌊q⌋, le_max_left 0 _, rfl⟩
      all_goals exact ⟨0, le_refl 0, rfl⟩
  · intro q hq
    rw [hval, hq]
    rfl
  · intro q hq0 hq
    rw [hval, hq]
    have hfloor : ⌊q⌋ < 0 := Int.floor_lt.2 (by exact_mod_cast hq0)
    show ((max 0 ⌊q⌋ : ℤ) : ℚ) = 0
    rw [max_eq_left hfloor.le]
    rfl
  · intro hne
    rw [hval]
    rcases hdg : draftGet draft l with _ | v
    · rfl
    · rcases v with q | _ | _ | _ | _
      · exact absurd hdg (hne q)
      all_goals rfl

/-- Witness for C10: a negative and a non-numeric draft value for "Pouch"
both commit a stored count of 0. -/
theorem saveDraft_clamps_to_nonneg_ints_witness :
    invGet (saveDraft [] [("Pouch", JsVal.num (-3))]) "Pouch" = 0 ∧
    invGet (saveDraft [] [("Pouch", JsVal.nan)]) "Pouch" = 0 :=
  ⟨(saveDraft_clamps_to_nonneg_ints [] [("Pouch", JsVal.num (-3))] "Pouch"
      (by decide)).2.2.1 (-3) (by decide) rfl,
   (saveDraft_clamps_to_nonneg_ints [] [("Pouch", JsVal.nan)] "Pouch"
      (by decide)).2.2.2 (fun q h => by simp [draftGet, List.lookup] at h)⟩

end SpinWin
